import Mathlib

/-
Verification of the gh_pr_comments collector (src/collector/src/gh_pr_comments).

Shallow embedding conventions:
  * Timestamps are ISO-8601 strings ("YYYY-MM-DDTHH:MM:SS..."); Python `datetime`
    comparison agrees with lexicographic comparison of these strings when they
    share an offset representation, and `datetime.date()` is the first 10
    characters.  Python `date` values are "YYYY-MM-DD" strings, whose object
    comparison also agrees with lexicographic string comparison.
  * Python `None` is `Option.none`; truthiness of a string is non-emptiness,
    truthiness of an object (datetime, user, dict) is `Option.isSome`.
  * Code that can raise an uncaught exception is modelled in `Except String`.
-/

/-- Lexicographic comparison of character lists, mirroring Python string `<`
(code-point order; Lean's `Char <` is code-point order as well). -/
def charListLt : List Char → List Char → Bool
  | [], [] => false
  | [], _ :: _ => true
  | _ :: _, [] => false
  | a :: as, b :: bs => if a < b then true else if b < a then false else charListLt as bs

/-- Python `a < b` on strings. -/
def strLt (a b : String) : Bool := charListLt a.data b.data

/-- Python `a <= b` on strings (total order, so `a <= b` iff `not (b < a)`). -/
def strLe (a b : String) : Bool := !(strLt b a)

/-- The date part of an ISO-8601 timestamp string: its first 10 characters.
Models both `datetime.date()` (fetcher.py) and `created_at[:10]` (gh_cli_fetcher.py). -/
def dateOf (s : String) : String := String.mk (s.data.take 10)

theorem charListLt_irrefl (l : List Char) : charListLt l l = false := by
  induction l with
  | nil => rfl
  | cons a as ih => simp [charListLt, lt_irrefl, ih]

theorem charListLt_asymm : ∀ a b : List Char,
    charListLt a b = true → charListLt b a = false := by
  intro a
  induction a with
  | nil => intro b _; cases b <;> rfl
  | cons x xs ih =>
    intro b hab
    cases b with
    | nil => simp [charListLt] at hab
    | cons y ys =>
      simp only [charListLt] at hab ⊢
      by_cases hxy : x < y
      · simp [hxy, asymm hxy]
      · by_cases hyx : y < x
        · simp [hxy, hyx] at hab
        · simp only [hxy, hyx, if_false] at hab ⊢
          exact ih ys hab

theorem charListLt_trans : ∀ a b c : List Char,
    charListLt a b = true → charListLt b c = true → charListLt a c = true := by
  intro a
  induction a with
  | nil =>
    intro b c hab hbc
    cases b with
    | nil => simp [charListLt] at hab
    | cons y ys =>
      cases c with
      | nil => simp [charListLt] at hbc
      | cons z zs => rfl
  | cons x xs ih =>
    intro b c hab hbc
    cases b with
    | nil => simp [charListLt] at hab
    | cons y ys =>
      cases c with
      | nil => simp [charListLt] at hbc
      | cons z zs =>
        simp only [charListLt] at hab hbc ⊢
        by_cases hxy : x < y
        · by_cases hyz : y < z
          · simp [lt_trans hxy hyz]
          · by_cases hzy : z < y
            · simp [hyz, hzy] at hbc
            · have hyez : y = z := le_antisymm (not_lt.mp hzy) (not_lt.mp hyz)
              subst hyez
              simp [hxy]
        · by_cases hyx : y < x
          · simp [hxy, hyx] at hab
          · have hxey : x = y := le_antisymm (not_lt.mp hyx) (not_lt.mp hxy)
            subst hxey
            simp only [lt_irrefl, if_false] at hab
            by_cases hyz : x < z
            · simp [hyz]
            · by_cases hzy : z < x
              · simp [hyz, hzy] at hbc
              · simp only [hyz, hzy, if_false] at hbc ⊢
                exact ih ys zs hab hbc

theorem charListLt_connex : ∀ a b : List Char,
    charListLt a b = false → charListLt b a = false → a = b := by
  intro a
  induction a with
  | nil =>
    intro b hab _
    cases b with
    | nil => rfl
    | cons y ys => simp [charListLt] at hab
  | cons x xs ih =>
    intro b hab hba
    cases b with
    | nil => simp [charListLt] at hba
    | cons y ys =>
      simp only [charListLt] at hab hba
      by_cases hxy : x < y
      · simp [hxy] at hab
      · by_cases hyx : y < x
        · simp [hxy, hyx] at hba
        · have hxey : x = y := le_antisymm (not_lt.mp hyx) (not_lt.mp hxy)
          subst hxey
          simp only [lt_irrefl, if_false] at hab hba
          rw [ih ys hab hba]

theorem charListLt_take_mono : ∀ (n : Nat) (a b : List Char),
    charListLt b a = false → charListLt (b.take n) (a.take n) = false := by
  intro n
  induction n with
  | zero => intro a b _; rfl
  | succ n ih =>
    intro a b hba
    cases a with
    | nil =>
      cases b with
      | nil => rfl
      | cons y ys => simp [List.take, charListLt]
    | cons x xs =>
      cases b with
      | nil => simp [charListLt] at hba
      | cons y ys =>
        simp only [charListLt, List.take] at hba ⊢
        by_cases hyx : y < x
        · simp [hyx] at hba
        · by_cases hxy : x < y
          · simp [hyx, hxy]
          · simp only [hyx, hxy, if_false] at hba ⊢
            exact ih xs ys hba

theorem charListLt_le_trans : ∀ a b c : List Char,
    charListLt b a = false → charListLt c b = false → charListLt c a = false := by
  intro a b c hab hbc
  rcases Bool.eq_false_or_eq_true (charListLt c a) with hca | hca
  · exfalso
    rcases Bool.eq_false_or_eq_true (charListLt b c) with hbc2 | hbc2
    · have hba : charListLt b a = true := charListLt_trans b c a hbc2 hca
      rw [hba] at hab
      exact Bool.noConfusion hab
    · have hbeq : b = c := charListLt_connex b c hbc2 hbc
      subst hbeq
      rw [hca] at hab
      exact Bool.noConfusion hab
  · exact hca

theorem strLe_refl (a : String) : strLe a a = true := by
  simp [strLe, strLt, charListLt_irrefl]

theorem strLe_trans {a b c : String} :
    strLe a b = true → strLe b c = true → strLe a c = true := by
  intro hab hbc
  simp only [strLe, strLt, Bool.not_eq_true'] at hab hbc ⊢
  exact charListLt_le_trans a.data b.data c.data hab hbc

theorem strLe_total (a b : String) : strLe a b = true ∨ strLe b a = true := by
  simp only [strLe, strLt, Bool.not_eq_true']
  rcases Bool.eq_false_or_eq_true (charListLt b.data a.data) with h | h
  · exact Or.inr (charListLt_asymm b.data a.data h)
  · exact Or.inl h

theorem strLe_of_not_strLe {a b : String} (h : strLe a b = false) : strLe b a = true := by
  rcases strLe_total a b with h1 | h1
  · rw [h1] at h; cases h
  · exact h1

theorem dateOf_mono {a b : String} (h : strLe a b = true) :
    strLe (dateOf a) (dateOf b) = true := by
  simp only [strLe, strLt, Bool.not_eq_true'] at h ⊢
  exact charListLt_take_mono 10 a.data b.data h

/-- DateFilter from models.py.  The `until` field is a Lean keyword, so it is
named `untilDate` here.  `since`/`untilDate` are ISO date strings (Python `date`
objects compare identically to their ISO strings). -/
structure DateFilter where
  since : Option String := none
  untilDate : Option String := none
deriving Repr, DecidableEq

/-- DateFilter.contains from models.py: `None` is contained; otherwise the
date part of the timestamp must be `>= since` (when set) and `<= until` (when
set).  Python's `if self.since` tests `None`-ness (date objects are truthy). -/
def DateFilter.contains (f : DateFilter) (dt : Option String) : Bool :=
  match dt with
  | none => true
  | some t =>
    if (match f.since with | some s => strLt (dateOf t) s | none => false) then false
    else if (match f.untilDate with | some u => strLt u (dateOf t) | none => false) then false
    else true

/-- An event dict `{type, date, person}` as built by both fetchers. -/
structure PREvent where
  type : String
  date : String
  person : String
deriving Repr, DecidableEq

/-- A review-comment or issue-comment as seen through either transport:
`user` is the commenting user's login (None when the user object is absent),
`created_at` its ISO timestamp string. -/
structure ReviewComment where
  user : Option String
  created_at : String
deriving Repr, DecidableEq

/-- A review submission: login, submission timestamp (None when absent),
upstream state string ("APPROVED", "CHANGES_REQUESTED", ...), body text. -/
structure Review where
  user : Option String
  submitted_at : Option String
  state : String
  body : String
deriving Repr, DecidableEq

/-- Upstream merge/close state of a PR.  PyGithub (fetcher.py) sees a merged PR
as `state == "closed"` with `merged == True`; gh CLI (gh_cli_fetcher.py) sees
`state == "MERGED"`. -/
inductive PRState
  | opened
  | closed
  | merged
deriving Repr, DecidableEq

/-- The upstream data of one pull request, shared by both transport models. -/
structure PRInput where
  number : Nat
  title : String
  author : Option String
  createdAt : String
  state : PRState
  mergedBy : Option String
  mergedAt : Option String
  closedAt : Option String
  reviewComments : List ReviewComment
  issueComments : List ReviewComment
  reviews : List Review
deriving Repr, DecidableEq

/-- Sort key comparison used by `events.sort(key=lambda e: e["date"])`. -/
def eventLe (a b : PREvent) : Bool := strLe a.date b.date

/-- Stable insertion of an event into an already sorted list: the new element
goes before the first strictly-later element and after earlier-discovered
equal-date elements stay... (insertion from the right end of the list, see
`sortEvents`). -/
def insertEvent (x : PREvent) : List PREvent → List PREvent
  | [] => [x]
  | y :: ys => if eventLe x y then x :: y :: ys else y :: insertEvent x ys

/-- Stable ascending sort by the `date` string.  Python's `list.sort` is a
stable ascending sort; a stable sort w.r.t. a total preorder is unique, so
insertion sort yields the identical list. -/
def sortEvents : List PREvent → List PREvent
  | [] => []
  | x :: xs => insertEvent x (sortEvents xs)

/-- fetcher.py fetch_pr_events, created event: `if pr.user:` append `created`
at `created_at` (never date-filtered). -/
def createdEventsTyped (pr : PRInput) : List PREvent :=
  match pr.author with
  | some login => [⟨"created", pr.createdAt, login⟩]
  | none => []

/-- fetcher.py comment emission (review comments and issue comments):
`if comment.user and date_filter.contains(comment.created_at)`. -/
def commentEventTyped (f : DateFilter) (c : ReviewComment) : Option PREvent :=
  match c.user with
  | some login =>
    if f.contains (some c.created_at) then some ⟨"comment", c.created_at, login⟩ else none
  | none => none

/-- fetcher.py review loop: `if review.user and review.body and
date_filter.contains(review.submitted_at)` append a `comment`.
`contains(None)` is True, and then `review.submitted_at.isoformat()` raises
AttributeError, modelled as `.error`.  No approved/changes_requested events
are emitted by this backend. -/
def reviewEventsTyped (f : DateFilter) : List Review → Except String (List PREvent)
  | [] => .ok []
  | r :: rest =>
    match r.user with
    | some login =>
      if r.body ≠ "" ∧ f.contains r.submitted_at = true then
        match r.submitted_at with
        | some sa => do
          let tail ← reviewEventsTyped f rest
          .ok (PREvent.mk "comment" sa login :: tail)
        | none => .error "AttributeError: submitted_at is None"
      else reviewEventsTyped f rest
    | none => reviewEventsTyped f rest

/-- fetcher.py merged/closed events: inside `if pr.state == "closed"`, the
merged branch needs `pr.merged and pr.merged_by` and uses `merged_at` with a
fallback to `closed_at` (AttributeError when both are None); otherwise
`elif pr.closed_at:` emits `closed` attributed to the author or "unknown". -/
def terminalEventsTyped (pr : PRInput) : Except String (List PREvent) :=
  if pr.state = PRState.opened then .ok []
  else
    match (if pr.state = PRState.merged then pr.mergedBy else none) with
    | some mb =>
      match pr.mergedAt with
      | some ma => .ok [⟨"merged", ma, mb⟩]
      | none =>
        match pr.closedAt with
        | some ca => .ok [⟨"merged", ca, mb⟩]
        | none => .error "AttributeError: closed_at is None"
    | none =>
      match pr.closedAt with
      | some ca => .ok [⟨"closed", ca, (match pr.author with | some a => a | none => "unknown")⟩]
      | none => .ok []

/-- fetcher.py _handle_rate_limit: raises FetchError when
`attempt >= max_retries`, else sleeps `min(60 * 2**attempt, 900)` seconds
(the slept duration is returned). -/
def handleRateLimit (attempt maxRetries : Nat) : Except String Nat :=
  if attempt ≥ maxRetries then .error "Rate limit exceeded and max retries reached"
  else .ok (min (60 * 2 ^ attempt) 900)

/-- First `n` elements when a cut point is given, the whole list otherwise. -/
def takeOpt (cut : Option Nat) (l : List α) : List α :=
  match cut with
  | none => l
  | some n => l.take n

/-- One `for attempt in range(maxRetries): try ... except
RateLimitExceededException: _handle_rate_limit(attempt, maxRetries)` loop from
fetch_pr_events, structurally recursive on the number of range elements left
(`remaining` starts at maxRetries with `attempt` starting at 0).
`sched attempt = some n` means iteration of the source raised a rate-limit
exception after `n` elements were consumed on that attempt (their events are
already appended to the shared list and are not removed); `none` means the
iteration completed and the loop breaks.  When the range is exhausted the
loop falls through with whatever was accumulated. -/
def goSourceE (maxRetries : Nat) (sched : Nat → Option Nat)
    (emit : Option Nat → Except String (List PREvent)) :
    Nat → Nat → List PREvent → Except String (List PREvent)
  | 0, _attempt, acc => .ok acc
  | remaining + 1, attempt, acc =>
    match sched attempt with
    | none => do
      let es ← emit none
      .ok (acc ++ es)
    | some n => do
      let es ← emit (some n)
      let _w ← handleRateLimit attempt maxRetries
      goSourceE maxRetries sched emit remaining (attempt + 1) (acc ++ es)

/-- Schedule on which every source iteration completes on its first attempt
(no rate-limit exceptions observed). -/
def noFail : Nat → Option Nat := fun _ => none

/-- fetch_pr_events from fetcher.py before the final sort.  The three upstream
paginated sources arrive as lists; `s1, s2, s3` are the rate-limit schedules
of the three retried source loops (review comments, issue comments, reviews);
max_retries = 3. -/
def fetchPrEventsTypedRaw (f : DateFilter) (pr : PRInput)
    (s1 s2 s3 : Nat → Option Nat) : Except String (List PREvent) := do
  let e0 := createdEventsTyped pr
  let e1 ← goSourceE 3 s1
    (fun cut => .ok ((takeOpt cut pr.reviewComments).filterMap (commentEventTyped f))) 3 0 []
  let e2 ← goSourceE 3 s2
    (fun cut => .ok ((takeOpt cut pr.issueComments).filterMap (commentEventTyped f))) 3 0 []
  let e3 ← goSourceE 3 s3 (fun cut => reviewEventsTyped f (takeOpt cut pr.reviews)) 3 0 []
  let e4 ← terminalEventsTyped pr
  .ok (e0 ++ e1 ++ e2 ++ e3 ++ e4)

/-- fetch_pr_events from fetcher.py: raw events sorted by date. -/
def fetchPrEventsTyped (f : DateFilter) (pr : PRInput)
    (s1 s2 s3 : Nat → Option Nat) : Except String (List PREvent) :=
  (fetchPrEventsTypedRaw f pr s1 s2 s3).map sortEvents

/-- gh_cli_fetcher.py created event: `if author and author.get("login"):`
(string truthiness, so an empty login is skipped). -/
def createdEventsCli (pr : PRInput) : List PREvent :=
  match pr.author with
  | some login => if login ≠ "" then [⟨"created", pr.createdAt, login⟩] else []
  | none => []

/-- gh_cli_fetcher.py comment emission: `if user and user.get("login") and
created_at:` then `if date_filter.contains(dt):`.  (`.replace("Z", "+00:00")`
only affects the offset suffix, not the 10-character date part.) -/
def commentEventCli (f : DateFilter) (c : ReviewComment) : Option PREvent :=
  match c.user with
  | some login =>
    if login ≠ "" ∧ c.created_at ≠ "" then
      if f.contains (some c.created_at) then some ⟨"comment", c.created_at, login⟩ else none
    else none
  | none => none

/-- gh_cli_fetcher.py review loop body: skip when login or submitted_at is
missing/empty; emit `approved`/`changes_requested` from the state regardless
of the date filter; then emit the non-empty body as a date-filtered comment. -/
def reviewEventsCliOne (f : DateFilter) (r : Review) : List PREvent :=
  match r.user, r.submitted_at with
  | some login, some sa =>
    if login ≠ "" ∧ sa ≠ "" then
      (if r.state = "APPROVED" then [⟨"approved", sa, login⟩]
       else if r.state = "CHANGES_REQUESTED" then [⟨"changes_requested", sa, login⟩]
       else []) ++
      (if r.body ≠ "" then
        (if f.contains (some sa) then [⟨"comment", sa, login⟩] else [])
       else [])
    else []
  | _, _ => []

/-- gh_cli_fetcher.py merged/closed events: `state == "MERGED"` requires
merged_by login and merged_at (no closed_at fallback); `state == "CLOSED"`
requires closed_at and attributes to the author login or "unknown". -/
def terminalEventsCli (pr : PRInput) : List PREvent :=
  match pr.state with
  | PRState.merged =>
    match pr.mergedBy, pr.mergedAt with
    | some mb, some ma => if mb ≠ "" ∧ ma ≠ "" then [⟨"merged", ma, mb⟩] else []
    | _, _ => []
  | PRState.closed =>
    match pr.closedAt with
    | some ca =>
      if ca ≠ "" then
        [⟨"closed", ca, (match pr.author with | some a => a | none => "unknown")⟩]
      else []
    | none => []
  | PRState.opened => []

/-- fetch_pr_events_gh from gh_cli_fetcher.py before the final sort.  The
per-source gh api calls that fail are non-fatal and already folded into the
input lists (a failed source is an empty list). -/
def fetchPrEventsGhRaw (f : DateFilter) (pr : PRInput) : List PREvent :=
  createdEventsCli pr
    ++ pr.reviewComments.filterMap (commentEventCli f)
    ++ pr.issueComments.filterMap (commentEventCli f)
    ++ pr.reviews.flatMap (reviewEventsCliOne f)
    ++ terminalEventsCli pr

/-- fetch_pr_events_gh from gh_cli_fetcher.py: raw events sorted by date. -/
def fetchPrEventsGh (f : DateFilter) (pr : PRInput) : List PREvent :=
  sortEvents (fetchPrEventsGhRaw f pr)

/-- A PR record `{number, title, events}`. -/
structure PRRecord where
  number : Nat
  title : String
  events : List PREvent
deriving Repr, DecidableEq

/-- fetch_pr_record from fetcher.py (no rate-limit exceptions on this path). -/
def fetchPrRecordTyped (f : DateFilter) (pr : PRInput) : Except String PRRecord :=
  (fetchPrEventsTyped f pr noFail noFail noFail).map
    (fun evs => PRRecord.mk pr.number pr.title evs)

/-- fetch_pr_record_gh from gh_cli_fetcher.py. -/
def fetchPrRecordGh (f : DateFilter) (pr : PRInput) : PRRecord :=
  PRRecord.mk pr.number pr.title (fetchPrEventsGh f pr)

/-- fetch_repo_prs from fetcher.py: walk the newest-created-first PR sequence;
`continue` past PRs created after `until`, `break` (stop consuming) at the
first PR created before `since`. -/
def fetchRepoPrsTyped (f : DateFilter) : List PRInput → List PRInput
  | [] => []
  | pr :: rest =>
    if (match f.untilDate with | some u => strLt u (dateOf pr.createdAt) | none => false) then
      fetchRepoPrsTyped f rest
    else if (match f.since with | some s => strLt (dateOf pr.createdAt) s | none => false) then
      []
    else pr :: fetchRepoPrsTyped f rest

/-- fetch_repo_prs_gh from gh_cli_fetcher.py: one `gh pr list` call, then each
PR is checked individually; out-of-range PRs on either side are skipped with
`continue` (no early break), and a PR with an empty createdAt string skips the
date checks entirely and is yielded. -/
def fetchRepoPrsGh (f : DateFilter) : List PRInput → List PRInput
  | [] => []
  | pr :: rest =>
    if pr.createdAt = "" then pr :: fetchRepoPrsGh f rest
    else if (match f.untilDate with | some u => strLt u (dateOf pr.createdAt) | none => false) then
      fetchRepoPrsGh f rest
    else if (match f.since with | some s => strLt (dateOf pr.createdAt) s | none => false) then
      fetchRepoPrsGh f rest
    else pr :: fetchRepoPrsGh f rest

/-- One repository as the org-level loops see it: its name, its PR list
(newest-created-first as delivered upstream), and whether enumerating its PRs
raises a repository-scoped transport error (GithubException / GhCliError),
which both org loops log and skip. -/
structure RepoInput where
  name : String
  prs : List PRInput
  broken : Bool
deriving Repr, DecidableEq

/-- The per-repository PR loop shared by both fetch_organization_data variants:
build each record and keep it only if its event list is non-empty. -/
def collectRecordsTyped (f : DateFilter) : List PRInput → Except String (List PRRecord)
  | [] => .ok []
  | pr :: rest => do
    let r ← fetchPrRecordTyped f pr
    let others ← collectRecordsTyped f rest
    .ok (if r.events ≠ [] then r :: others else others)

/-- fetch_organization_data from fetcher.py.  It takes no repository filter
(cli.py and its own tests pass one, which is a TypeError at runtime).  A broken
repository is logged and skipped; PR records with empty event lists are
dropped; a repository is yielded only when its record list is non-empty. -/
def fetchOrganizationDataTyped (f : DateFilter) :
    List RepoInput → Except String (List (String × List PRRecord))
  | [] => .ok []
  | repo :: rest =>
    if repo.broken then fetchOrganizationDataTyped f rest
    else do
      let recs ← collectRecordsTyped f (fetchRepoPrsTyped f repo.prs)
      let tail ← fetchOrganizationDataTyped f rest
      .ok (if recs ≠ [] then (repo.name, recs) :: tail else tail)

/-- The per-repository PR loop of fetch_organization_data_gh. -/
def collectRecordsGh (f : DateFilter) (prs : List PRInput) : List PRRecord :=
  (prs.map (fetchPrRecordGh f)).filter (fun r => r.events ≠ [])

/-- fetch_organization_data_gh from gh_cli_fetcher.py: the optional
`repo_filter` callable is consulted before any PR work; broken repositories
are skipped; PRs without events are dropped; a repository is yielded only when
it has records. -/
def fetchOrganizationDataGh (f : DateFilter) (repoFilter : Option (String → Bool)) :
    List RepoInput → List (String × List PRRecord)
  | [] => []
  | repo :: rest =>
    if (match repoFilter with | some p => !(p repo.name) | none => false) then
      fetchOrganizationDataGh f repoFilter rest
    else if repo.broken then fetchOrganizationDataGh f repoFilter rest
    else
      let recs := collectRecordsGh f (fetchRepoPrsGh f repo.prs)
      if recs ≠ [] then (repo.name, recs) :: fetchOrganizationDataGh f repoFilter rest
      else fetchOrganizationDataGh f repoFilter rest

/-- Outcome of one attempt of a retried typed-backend source iteration. -/
inductive TypedAttempt
  | ok
  | rateLimited
  | raised
deriving Repr, DecidableEq

/-- How a typed-backend retry loop ended. -/
inductive TypedLoopEnd
  | completed
  | exhausted
  | propagated
  | fetchError
deriving Repr, DecidableEq

/-- The control skeleton of a fetcher.py `for attempt in range(maxRetries)`
source loop, tracking the backoff sleeps.  Only RateLimitExceededException is
caught; any other exception propagates immediately (`propagated`).  When the
last attempt is rate-limited, _handle_rate_limit(attempt, maxRetries) still
only sleeps (attempt < maxRetries), and the loop then falls through silently
(`exhausted`); `fetchError` (the FetchError raise inside _handle_rate_limit)
is unreachable from these call sites.  Structurally recursive on the number
of range elements left (`remaining` starts at maxRetries, `attempt` at 0). -/
def typedRetry (maxRetries : Nat) (outcome : Nat → TypedAttempt) :
    Nat → Nat → List Nat → List Nat × TypedLoopEnd
  | 0, _attempt, sleeps => (sleeps, TypedLoopEnd.exhausted)
  | remaining + 1, attempt, sleeps =>
    match outcome attempt with
    | TypedAttempt.ok => (sleeps, TypedLoopEnd.completed)
    | TypedAttempt.raised => (sleeps, TypedLoopEnd.propagated)
    | TypedAttempt.rateLimited =>
      match handleRateLimit attempt maxRetries with
      | Except.error _ => (sleeps, TypedLoopEnd.fetchError)
      | Except.ok w => typedRetry maxRetries outcome remaining (attempt + 1) (sleeps ++ [w])

/-- Outcome of one subprocess invocation inside _run_gh_command. -/
inductive GhAttempt
  | ok
  | rateLimited
  | failed
deriving Repr, DecidableEq

/-- How _run_gh_command ended. -/
inductive GhEnd
  | success
  | rateLimitError
  | ghCliError
deriving Repr, DecidableEq

/-- The _run_gh_command loop from gh_cli_fetcher.py: on a rate-limit error it sleeps
`min(60 * 2**attempt, 300)` and retries while `attempt < max_retries - 1`,
raising RateLimitError on the last attempt; any other CalledProcessError
raises GhCliError immediately.  Returns (sleeps, how it ended, attempts
made); an exhausted range falls through to the trailing `return []`
(unreachable for max_retries > 0).  Structurally recursive on the number of
range elements left (`remaining` starts at maxRetries, `attempt` at 0). -/
def runGhCommand (maxRetries : Nat) (outcome : Nat → GhAttempt) :
    Nat → Nat → List Nat → List Nat × GhEnd × Nat
  | 0, attempt, sleeps => (sleeps, GhEnd.success, attempt)
  | remaining + 1, attempt, sleeps =>
    match outcome attempt with
    | GhAttempt.ok => (sleeps, GhEnd.success, attempt + 1)
    | GhAttempt.failed => (sleeps, GhEnd.ghCliError, attempt + 1)
    | GhAttempt.rateLimited =>
      if attempt < maxRetries - 1 then
        runGhCommand maxRetries outcome remaining (attempt + 1)
          (sleeps ++ [min (60 * 2 ^ attempt) 300])
      else (sleeps, GhEnd.rateLimitError, attempt + 1)

/-- Scan for the closing `]` of a glob character class, returning the class
contents and the rest of the pattern. -/
def findClose : List Char → Option (List Char × List Char)
  | [] => none
  | c :: rest =>
    if c = ']' then some ([], rest)
    else
      match findClose rest with
      | some (ins, aft) => some (c :: ins, aft)
      | none => none

theorem findClose_length : ∀ (cs ins aft : List Char),
    findClose cs = some (ins, aft) → aft.length < cs.length := by
  intro cs
  induction cs with
  | nil => intro ins aft h; simp [findClose] at h
  | cons c rest ih =>
    intro ins aft h
    simp only [findClose] at h
    by_cases hc : c = ']'
    · simp [hc] at h
      rw [← h.2]
      simp
    · simp only [hc, if_false] at h
      cases hfc : findClose rest with
      | none => rw [hfc] at h; simp at h
      | some p =>
        rw [hfc] at h
        simp at h
        have := ih p.1 p.2 (by rw [hfc])
        have haft : aft = p.2 := by rw [← h.2]
        rw [haft]
        simp
        omega

/-- Parse a glob character class after a `[` (fnmatch.translate): a leading `!`
negates; a `]` right after `[` (or after `[!`) is a literal member; returns
(members, negation flag, rest of pattern), or `none` when no closing `]`
exists (the `[` is then a literal character). -/
def splitClass (cs : List Char) : Option (List Char × Bool × List Char) :=
  match cs with
  | [] => none
  | c1 :: rest1 =>
    if c1 = '!' then
      match rest1 with
      | [] => none
      | c2 :: rest2 =>
        if c2 = ']' then (findClose rest2).map (fun p => (']' :: p.1, true, p.2))
        else (findClose rest1).map (fun p => (p.1, true, p.2))
    else if c1 = ']' then (findClose rest1).map (fun p => (']' :: p.1, false, p.2))
    else (findClose cs).map (fun p => (p.1, false, p.2))

theorem findClose_map_length {body ins rest : List Char} {neg : Bool}
    {g : List Char × List Char → List Char × Bool × List Char}
    (hg : ∀ p, (g p).2.2 = p.2)
    (h : (findClose body).map g = some (ins, neg, rest)) :
    rest.length < body.length := by
  cases hfc : findClose body with
  | none => rw [hfc] at h; simp at h
  | some p =>
    rw [hfc] at h
    simp only [Option.map_some'] at h
    have h3 : g p = (ins, neg, rest) := Option.some.inj h
    have h2 : p.2 = rest := by rw [← hg p, h3]
    rw [← h2]
    exact findClose_length body p.1 p.2 hfc

theorem splitClass_length (cs ins : List Char) (neg : Bool) (rest : List Char)
    (h : splitClass cs = some (ins, neg, rest)) : rest.length < cs.length := by
  cases cs with
  | nil => simp [splitClass] at h
  | cons c1 rest1 =>
    by_cases h1 : c1 = '!'
    · cases rest1 with
      | nil => simp [splitClass, h1] at h
      | cons c2 rest2 =>
        by_cases h2 : c2 = ']'
        · simp only [splitClass, h1, h2, if_true, if_pos] at h
          have := findClose_map_length (fun p => rfl) h
          simp only [List.length_cons] at this ⊢
          omega
        · simp only [splitClass, h1, h2, if_true, if_pos, if_neg, if_false] at h
          have := findClose_map_length (fun p => rfl) h
          simp only [List.length_cons] at this ⊢
          omega
    · by_cases h2 : c1 = ']'
      · simp only [splitClass, h1, h2, if_false, if_neg, if_true, if_pos] at h
        have := findClose_map_length (fun p => rfl) h
        simp only [List.length_cons] at this ⊢
        omega
      · simp only [splitClass, h1, h2, if_false, if_neg] at h
        have := findClose_map_length (fun p => rfl) h
        simp only [List.length_cons] at this ⊢
        omega

/-- Membership of a character in a glob class body, with `a-b` ranges; a `-`
without both endpoints is a literal. -/
def memClass : List Char → Char → Bool
  | a :: '-' :: b :: rest, c => decide (a ≤ c ∧ c ≤ b) || memClass rest c
  | a :: rest, c => decide (a = c) || memClass rest c
  | [], _ => false

/-- Shell-glob matching of a pattern against a name, as fnmatch.fnmatchcase
does via its translated regex: `*` matches any (possibly empty) sequence, `?`
any single character, `[...]`/`[!...]` a character class, a `[` without a
closing `]` is literal, and every other character matches itself.  (POSIX
fnmatch.fnmatch normcases both arguments with the identity.) -/
def globMatchAux : List Char → List Char → Bool
  | [], [] => true
  | [], _ :: _ => false
  | '*' :: ps, [] => globMatchAux ps []
  | '*' :: ps, c :: ss => globMatchAux ps (c :: ss) || globMatchAux ('*' :: ps) ss
  | '?' :: _, [] => false
  | '?' :: ps, _ :: ss => globMatchAux ps ss
  | '[' :: ps, s =>
    match hsc : splitClass ps with
    | some (ins, neg, rest) =>
      match s with
      | c :: ss => (if neg then !(memClass ins c) else memClass ins c) && globMatchAux rest ss
      | [] => false
    | none =>
      match s with
      | c :: ss => decide (c = '[') && globMatchAux ps ss
      | [] => false
  | p :: ps, c :: ss => decide (p = c) && globMatchAux ps ss
  | _ :: _, [] => false
termination_by pat s => pat.length + s.length
decreasing_by
  all_goals simp only [List.length_cons]
  all_goals try omega
  · have := splitClass_length ps ins neg rest hsc
    omega

/-- fnmatch.fnmatch(name, pattern) on POSIX. -/
def fnmatchGlob (name pattern : String) : Bool :=
  globMatchAux pattern.data name.data

/-- should_process_repo from cli.py: when include patterns exist the name must
match at least one; when exclude patterns exist the name must match none. -/
def shouldProcessRepo (includePatterns excludePatterns : List String)
    (repoName : String) : Bool :=
  if includePatterns ≠ [] ∧ includePatterns.any (fun p => fnmatchGlob repoName p) = false then
    false
  else if excludePatterns ≠ [] ∧ excludePatterns.any (fun p => fnmatchGlob repoName p) = true then
    false
  else true

/-- One persisted snapshot of the report: the generated_at stamp (modelled as
the count of `datetime.now` refreshes so far; the initial report built before
the loop has stamp 0) and the repositories recorded so far. -/
structure SavedReport where
  generatedAt : Nat
  repos : List (String × List PRRecord)
deriving Repr, DecidableEq

/-- Result of the cli.py main fetch loop: final in-memory repositories, every
snapshot passed to save_report in order, and the process exit code. -/
structure MainRun where
  finalRepos : List (String × List PRRecord)
  saves : List SavedReport
  exitCode : Nat
deriving Repr, DecidableEq

/-- The `for repo_name, prs in data_iterator` loop of cli.py main.
`interruptAt = some k` means the SIGINT handler set the `interrupted` flag
while the iterator was producing the yield with 0-based index `k` (so the
flag is observed by `if interrupted: break` from that iteration on); `fatal`
means the iterator raises FetchError/GhCliError after its yields, reaching
the `except` branch that saves the report (without refreshing generated_at)
and exits 1.  The loop body stores the yield, refreshes generated_at, and
saves; after a completed loop a set flag exits 130, otherwise 0. -/
def mainLoopGo (interruptAt : Option Nat) (fatal : Bool) :
    List (String × List PRRecord) → Nat → List (String × List PRRecord) → Nat →
    List SavedReport → MainRun
  | [], _idx, repos, gen, saves =>
    if fatal then MainRun.mk repos (saves ++ [SavedReport.mk gen repos]) 1
    else MainRun.mk repos saves (if interruptAt.isSome then 130 else 0)
  | y :: rest, idx, repos, gen, saves =>
    if (match interruptAt with | some k => decide (k ≤ idx) | none => false) then
      MainRun.mk repos saves 130
    else
      mainLoopGo interruptAt fatal rest (idx + 1) (repos ++ [y]) (gen + 1)
        (saves ++ [SavedReport.mk (gen + 1) (repos ++ [y])])

/-- cli.py main fetch loop over the yields of the selected backend. -/
def mainLoop (yields : List (String × List PRRecord)) (interruptAt : Option Nat)
    (fatal : Bool) : MainRun :=
  mainLoopGo interruptAt fatal yields 0 [] 0 []

theorem strLt_irrefl (a : String) : strLt a a = false := by
  simp [strLt, charListLt_irrefl]

theorem mem_insertEvent (x z : PREvent) : ∀ l : List PREvent,
    z ∈ insertEvent x l ↔ z = x ∨ z ∈ l := by
  intro l
  induction l with
  | nil => simp [insertEvent]
  | cons y ys ih =>
    simp only [insertEvent]
    by_cases h : eventLe x y = true
    · simp [h, List.mem_cons]
    · simp only [Bool.not_eq_true] at h
      simp [h, List.mem_cons, ih]
      tauto

theorem pairwise_insertEvent (x : PREvent) : ∀ l : List PREvent,
    List.Pairwise (fun a b => eventLe a b = true) l →
    List.Pairwise (fun a b => eventLe a b = true) (insertEvent x l) := by
  intro l
  induction l with
  | nil => intro _; simp [insertEvent]
  | cons y ys ih =>
    intro hp
    rcases List.pairwise_cons.mp hp with ⟨hy, hys⟩
    simp only [insertEvent]
    by_cases h : eventLe x y = true
    · simp only [h, if_true]
      refine List.pairwise_cons.mpr ⟨?_, hp⟩
      intro z hz
      rcases List.mem_cons.mp hz with rfl | hz2
      · exact h
      · exact strLe_trans h (hy z hz2)
    · simp only [Bool.not_eq_true] at h
      simp only [h, Bool.false_eq_true, if_false]
      refine List.pairwise_cons.mpr ⟨?_, ih hys⟩
      intro z hz
      rcases (mem_insertEvent x z ys).mp hz with rfl | hz2
      · exact strLe_of_not_strLe h
      · exact hy z hz2

theorem sortEvents_sorted : ∀ l : List PREvent,
    List.Pairwise (fun a b => eventLe a b = true) (sortEvents l) := by
  intro l
  induction l with
  | nil => simp [sortEvents]
  | cons x xs ih => exact pairwise_insertEvent x (sortEvents xs) ih

theorem eventLe_false_date_ne {x y : PREvent} (h : eventLe x y = false) :
    (y.date == x.date) = false := by
  have hlt : strLt y.date x.date = true := by
    simpa [eventLe, strLe] using h
  by_contra hne
  simp only [Bool.not_eq_false, beq_iff_eq] at hne
  rw [hne] at hlt
  rw [strLt_irrefl x.date] at hlt
  exact Bool.noConfusion hlt

theorem filter_insertEvent (d : String) (x : PREvent) : ∀ l : List PREvent,
    (insertEvent x l).filter (fun e => e.date == d) =
      (if x.date == d then x :: l.filter (fun e => e.date == d)
       else l.filter (fun e => e.date == d)) := by
  intro l
  induction l with
  | nil =>
    simp only [insertEvent, List.filter]
    by_cases hx : (x.date == d) = true <;> simp [hx]
  | cons y ys ih =>
    simp only [insertEvent]
    by_cases h : eventLe x y = true
    · simp only [h, if_true, List.filter]
      by_cases hx : (x.date == d) = true <;>
        by_cases hy : (y.date == d) = true <;>
        simp [hx, hy]
    · simp only [Bool.not_eq_true] at h
      simp only [h, Bool.false_eq_true, if_false, List.filter]
      by_cases hx : (x.date == d) = true
      · have hyne : (y.date == d) = false := by
          have h2 := eventLe_false_date_ne h
          simp only [beq_iff_eq] at hx
          rw [hx] at h2
          exact h2
        simp [hyne, ih, hx]
      · simp only [Bool.not_eq_true] at hx
        by_cases hy : (y.date == d) = true <;> simp [hx, hy, ih]

theorem sortEvents_filter (d : String) : ∀ l : List PREvent,
    (sortEvents l).filter (fun e => e.date == d) = l.filter (fun e => e.date == d) := by
  intro l
  induction l with
  | nil => rfl
  | cons x xs ih =>
    simp only [sortEvents, filter_insertEvent, List.filter, ih]
    by_cases hx : (x.date == d) = true <;> simp [hx]

theorem contains_some_eq (f : DateFilter) (t : String) :
    f.contains (some t) =
      ((match f.since with | some s => strLe s (dateOf t) | none => true) &&
       (match f.untilDate with | some u => strLe (dateOf t) u | none => true)) := by
  unfold DateFilter.contains
  cases f.since with
  | none =>
    cases f.untilDate with
    | none => simp
    | some u => by_cases h : strLt u (dateOf t) = true <;> simp [h, strLe]
  | some s =>
    cases f.untilDate with
    | none => by_cases h : strLt (dateOf t) s = true <;> simp [h, strLe]
    | some u =>
      by_cases h1 : strLt (dateOf t) s = true <;>
        by_cases h2 : strLt u (dateOf t) = true <;>
        simp [h1, h2, strLe]

/-- C7: DateFilter.contains is True when the window has no bounds and for a
null timestamp; for a present timestamp it holds iff the timestamp's date is
at least `since` (when set) and at most `until` (when set), inclusively; and
the accepted set of timestamps is convex (a single contiguous region): any
timestamp lying between two accepted timestamps is accepted. -/
theorem claim_C7_datewindow_contains :
    (∀ (f : DateFilter) (t : Option String), f.since = none → f.untilDate = none →
        f.contains t = true) ∧
    (∀ f : DateFilter, f.contains none = true) ∧
    (∀ (f : DateFilter) (t : String), f.contains (some t) = true ↔
        ((∀ s, f.since = some s → strLe s (dateOf t) = true) ∧
         (∀ u, f.untilDate = some u → strLe (dateOf t) u = true))) ∧
    (∀ (f : DateFilter) (t1 t2 t3 : String), strLe t1 t2 = true → strLe t2 t3 = true →
        f.contains (some t1) = true → f.contains (some t3) = true →
        f.contains (some t2) = true) := by
  have hiff : ∀ (f : DateFilter) (t : String), f.contains (some t) = true ↔
      ((∀ s, f.since = some s → strLe s (dateOf t) = true) ∧
       (∀ u, f.untilDate = some u → strLe (dateOf t) u = true)) := by
    intro f t
    rw [contains_some_eq]
    cases f.since <;> cases f.untilDate <;> simp
  refine ⟨?_, ?_, hiff, ?_⟩
  · intro f t h1 h2
    cases t with
    | none => rfl
    | some t0 => simp [DateFilter.contains, h1, h2]
  · intro f; rfl
  · intro f t1 t2 t3 h12 h23 hc1 hc3
    rcases (hiff f t1).mp hc1 with ⟨hs1, _⟩
    rcases (hiff f t3).mp hc3 with ⟨_, hu3⟩
    refine (hiff f t2).mpr ⟨?_, ?_⟩
    · intro s hs
      exact strLe_trans (hs1 s hs) (dateOf_mono h12)
    · intro u hu
      exact strLe_trans (dateOf_mono h23) (hu3 u hu)

/-- C7 witness: the convexity conjunct applied to a bounded window and three
concrete timestamps. -/
theorem claim_C7_witness :
    (DateFilter.mk (some "2025-06-01") (some "2025-06-30")).contains
      (some "2025-06-15T10:00:00Z") = true :=
  claim_C7_datewindow_contains.2.2.2
    (DateFilter.mk (some "2025-06-01") (some "2025-06-30"))
    "2025-06-10T00:00:00Z" "2025-06-15T10:00:00Z" "2025-06-20T00:00:00Z"
    (by decide) (by decide) (by decide) (by decide)

/-- The empty date window. -/
def wNone : DateFilter := DateFilter.mk none none

/-- Window with since = 2025-06-01 and no upper bound. -/
def windowJune : DateFilter := DateFilter.mk (some "2025-06-01") none

/-- A PR whose only activity is one approved review, submitted before the
window, with a non-empty body. -/
def prApproved : PRInput :=
  { number := 7, title := "Add feature", author := none,
    createdAt := "2025-06-10T00:00:00Z", state := PRState.opened,
    mergedBy := none, mergedAt := none, closedAt := none,
    reviewComments := [], issueComments := [],
    reviews := [⟨some "reviewer", some "2025-01-01T11:00:00Z", "APPROVED", "LGTM"⟩] }

/-- A PR with an author and one review comment dated before the creation
date, so that sorting reorders the discovery order. -/
def prSortDemo : PRInput :=
  { number := 3, title := "Sort demo", author := some "author",
    createdAt := "2025-06-10T00:00:00Z", state := PRState.opened,
    mergedBy := none, mergedAt := none, closedAt := none,
    reviewComments := [⟨some "alice", "2025-06-05T00:00:00Z"⟩], issueComments := [],
    reviews := [] }

/-- The raw (pre-sort) events of `prSortDemo` under the empty window. -/
def rawSortDemo : List PREvent :=
  [⟨"created", "2025-06-10T00:00:00Z", "author"⟩,
   ⟨"comment", "2025-06-05T00:00:00Z", "alice"⟩]

/-- C9: both backends return the aggregated per-PR event list sorted ascending
by the timestamp string (lexicographic comparison), for every input and every
rate-limit schedule, and the sort is stable: for each timestamp value, the
events carrying it appear in the order the four sources discovered them. -/
theorem claim_C9_events_sorted_stable :
    (∀ (f : DateFilter) (pr : PRInput) (s1 s2 s3 : Nat → Option Nat)
        (raw : List PREvent),
        fetchPrEventsTypedRaw f pr s1 s2 s3 = Except.ok raw →
        fetchPrEventsTyped f pr s1 s2 s3 = Except.ok (sortEvents raw) ∧
        List.Pairwise (fun a b => eventLe a b = true) (sortEvents raw) ∧
        (∀ d, (sortEvents raw).filter (fun e => e.date == d) =
          raw.filter (fun e => e.date == d))) ∧
    (∀ (f : DateFilter) (pr : PRInput),
        fetchPrEventsGh f pr = sortEvents (fetchPrEventsGhRaw f pr) ∧
        List.Pairwise (fun a b => eventLe a b = true) (fetchPrEventsGh f pr) ∧
        (∀ d, (fetchPrEventsGh f pr).filter (fun e => e.date == d) =
          (fetchPrEventsGhRaw f pr).filter (fun e => e.date == d))) := by
  constructor
  · intro f pr s1 s2 s3 raw hraw
    refine ⟨?_, sortEvents_sorted raw, fun d => sortEvents_filter d raw⟩
    simp [fetchPrEventsTyped, hraw, Except.map]
  · intro f pr
    exact ⟨rfl, sortEvents_sorted (fetchPrEventsGhRaw f pr),
      fun d => sortEvents_filter d (fetchPrEventsGhRaw f pr)⟩

/-- C9 witness: the typed backend on a concrete PR whose raw discovery order is
out of timestamp order; the returned list is the stable sort of the raw list. -/
theorem claim_C9_witness :
    fetchPrEventsTyped wNone prSortDemo noFail noFail noFail =
      Except.ok (sortEvents rawSortDemo) ∧
    List.Pairwise (fun a b => eventLe a b = true) (sortEvents rawSortDemo) ∧
    (sortEvents rawSortDemo).filter (fun e => e.date == "2025-06-05T00:00:00Z") =
      rawSortDemo.filter (fun e => e.date == "2025-06-05T00:00:00Z") :=
  have h := claim_C9_events_sorted_stable.1 wNone prSortDemo noFail noFail noFail
    rawSortDemo rfl
  ⟨h.1, h.2.1, h.2.2 "2025-06-05T00:00:00Z"⟩

/-- A PR whose only activity is one in-window review comment by alice. -/
def prDup : PRInput :=
  { number := 2, title := "Dup demo", author := none,
    createdAt := "2025-06-10T00:00:00Z", state := PRState.opened,
    mergedBy := none, mergedAt := none, closedAt := none,
    reviewComments := [⟨some "alice", "2025-06-12T10:00:00Z"⟩], issueComments := [],
    reviews := [] }

/-- Alice's comment event as emitted from `prDup`. -/
def dupEvent : PREvent := ⟨"comment", "2025-06-12T10:00:00Z", "alice"⟩

/-- C10: the typed backend's retry loops do not remove events already appended
by an aborted pass.  On the execution where the review-comment source consumes
its one comment and then raises a rate-limit exception on attempt 0, and
completes on attempt 1, fetch_pr_events returns that single upstream comment
twice — exactly-once inclusion is not an invariant. -/
theorem claim_C10_duplicate_events_on_retry :
    fetchPrEventsTyped wNone prDup (fun n => if n = 0 then some 1 else none)
        noFail noFail = Except.ok [dupEvent, dupEvent] ∧
    1 < List.count dupEvent [dupEvent, dupEvent] := by
  exact ⟨rfl, by decide⟩

/-- C1: failing input for the typed backend.  For a review with disposition
approved, submitted outside the window, with a non-empty body, the CLI backend
emits exactly one `approved` event and no `comment` (as the claim states); the
typed backend emits no event at all — fetcher.py never produces
approved/changes_requested events, although its own tests
(test_fetcher.py::test_fetches_approved_event and neighbours) require them. -/
theorem claim_C1_typed_missing_approved :
    fetchPrEventsGh windowJune prApproved =
      [PREvent.mk "approved" "2025-01-01T11:00:00Z" "reviewer"] ∧
    fetchPrEventsTyped windowJune prApproved noFail noFail noFail =
      Except.ok [] := by
  exact ⟨rfl, rfl⟩

/-- C3 counterexample: on three consecutive rate-limit failures with
max_retries = 3, the typed backend's retry loop sleeps three times (60s, 120s,
240s) and then falls through without raising any error, contradicting the
claimed RateLimitExhausted after exactly 3 attempts and exactly 2 sleeps. -/
theorem claim_C3_counterexample :
    typedRetry 3 (fun _ => TypedAttempt.rateLimited) 3 0 [] =
      ([60, 120, 240], TypedLoopEnd.exhausted) := rfl

/-- C3 amended: _handle_rate_limit sleeps min(60 * 2^attempt, 900) below
max_retries and raises at or above it (a point its callers never reach); the
CLI backend's _run_gh_command raises its distinguished RateLimitError after
exactly 3 attempts with exactly 2 intervening sleeps of 60s and 120s (cap
300s), retries a transient rate limit (one 60s sleep, success on attempt 1),
and fails immediately without sleeping on a non-rate-limit error; the typed
backend's source loops sleep on every rate-limited attempt (60s, 120s, 240s
when all three fail) and then continue without raising, propagate
non-rate-limit exceptions immediately, and complete after a single 60s sleep
when only attempt 0 is rate-limited. -/
theorem claim_C3_retry_bounds :
    (∀ attempt maxRetries : Nat, handleRateLimit attempt maxRetries =
        if attempt ≥ maxRetries then
          Except.error "Rate limit exceeded and max retries reached"
        else Except.ok (min (60 * 2 ^ attempt) 900)) ∧
    runGhCommand 3 (fun _ => GhAttempt.rateLimited) 3 0 [] =
      ([60, 120], GhEnd.rateLimitError, 3) ∧
    runGhCommand 3 (fun n => if n = 0 then GhAttempt.rateLimited else GhAttempt.ok) 3 0 [] =
      ([60], GhEnd.success, 2) ∧
    runGhCommand 3 (fun _ => GhAttempt.failed) 3 0 [] = ([], GhEnd.ghCliError, 1) ∧
    typedRetry 3 (fun _ => TypedAttempt.rateLimited) 3 0 [] =
      ([60, 120, 240], TypedLoopEnd.exhausted) ∧
    typedRetry 3 (fun _ => TypedAttempt.raised) 3 0 [] = ([], TypedLoopEnd.propagated) ∧
    typedRetry 3 (fun n => if n = 0 then TypedAttempt.rateLimited else TypedAttempt.ok) 3 0 [] =
      ([60], TypedLoopEnd.completed) := by
  refine ⟨fun attempt maxRetries => rfl, rfl, rfl, rfl, rfl, rfl, rfl⟩

/-- Helper to build a PR with only an author and a creation date. -/
def mkBarePR (n : Nat) (d : String) : PRInput :=
  { number := n, title := "PR", author := some "someone", createdAt := d,
    state := PRState.opened, mergedBy := none, mergedAt := none, closedAt := none,
    reviewComments := [], issueComments := [], reviews := [] }

/-- In-window PR created 2025-06-15. -/
def prJun15 : PRInput := mkBarePR 1 "2025-06-15T00:00:00Z"

/-- Out-of-window PR created 2025-01-01 (before windowJune.since). -/
def prJan1 : PRInput := mkBarePR 2 "2025-01-01T00:00:00Z"

/-- In-window PR created 2025-06-20. -/
def prJun20 : PRInput := mkBarePR 3 "2025-06-20T00:00:00Z"

/-- C2 counterexample: the CLI backend keeps consuming after meeting a PR
created before `since`: its result depends on the PRs that follow the too-old
PR (here the third PR is yielded), so enumeration does not stop there. -/
theorem claim_C2_counterexample :
    fetchRepoPrsGh windowJune [prJun15, prJan1, prJun20] ≠
      fetchRepoPrsGh windowJune [prJun15, prJan1] := by
  decide

/-- C2 amended: the typed backend stops consuming at the first PR older than
`since` (provided that PR is not also skipped by the `until` check, which runs
first): its result is independent of everything after that PR; PRs newer than
`until` are skipped individually and enumeration continues.  The CLI backend
instead retrieves the whole PR list in one call and filters each PR
individually on both bounds (no early termination), yielding PRs with an
empty creation date unconditionally. -/
theorem claim_C2_enumeration :
    (∀ (f : DateFilter) (s : String) (xs ys ys' : List PRInput) (old : PRInput),
        f.since = some s →
        strLt (dateOf old.createdAt) s = true →
        (match f.untilDate with
         | some u => strLt u (dateOf old.createdAt)
         | none => false) = false →
        fetchRepoPrsTyped f (xs ++ old :: ys) = fetchRepoPrsTyped f (xs ++ old :: ys')) ∧
    (∀ (f : DateFilter) (u : String) (pr : PRInput) (rest : List PRInput),
        f.untilDate = some u →
        strLt u (dateOf pr.createdAt) = true →
        fetchRepoPrsTyped f (pr :: rest) = fetchRepoPrsTyped f rest) ∧
    (∀ (f : DateFilter) (prs : List PRInput),
        fetchRepoPrsGh f prs = prs.filter (fun pr =>
          (pr.createdAt == "") ||
          (!(match f.untilDate with
             | some u => strLt u (dateOf pr.createdAt)
             | none => false) &&
           !(match f.since with
             | some s => strLt (dateOf pr.createdAt) s
             | none => false)))) := by
  refine ⟨?_, ?_, ?_⟩
  · intro f s xs ys ys' old hs hold hu
    induction xs with
    | nil =>
      simp only [List.nil_append, fetchRepoPrsTyped, hu, hs, hold]
      simp
    | cons x xs ih =>
      simp only [List.cons_append, fetchRepoPrsTyped, List.append_eq]
      rw [ih]
  · intro f u pr rest hu hlt
    simp only [fetchRepoPrsTyped, hu, hlt]
    simp
  · intro f prs
    induction prs with
    | nil => rfl
    | cons pr rest ih =>
      simp only [fetchRepoPrsGh, List.filter_cons]
      by_cases hempty : pr.createdAt = ""
      · simp [hempty, ih]
      · by_cases huntil : (match f.untilDate with
            | some u => strLt u (dateOf pr.createdAt)
            | none => false) = true
        · simp [hempty, huntil, ih]
        · simp only [Bool.not_eq_true] at huntil
          by_cases hsince : (match f.since with
              | some s => strLt (dateOf pr.createdAt) s
              | none => false) = true
          · simp [hempty, huntil, hsince, ih]
          · simp only [Bool.not_eq_true] at hsince
            simp [hempty, huntil, hsince, ih]

/-- C2 witness: the typed backend's output on [Jun 15, Jan 1, Jun 20] with
since = 2025-06-01 equals its output when everything after the too-old Jan 1
PR is removed — the tail is never consumed. -/
theorem claim_C2_witness :
    fetchRepoPrsTyped windowJune ([prJun15] ++ prJan1 :: [prJun20]) =
      fetchRepoPrsTyped windowJune ([prJun15] ++ prJan1 :: []) :=
  claim_C2_enumeration.1 windowJune "2025-06-01" [prJun15] [prJun20] [] prJan1
    rfl (by decide) (by decide)

/-- The save_report snapshots produced by an uninterrupted run over `ys`,
starting from report contents `repos0` and generated_at counter `gen0`: the
j-th save has a freshly incremented stamp and the first j+1 yields recorded. -/
def prefixSaves (gen0 : Nat) (repos0 : List (String × List PRRecord))
    (ys : List (String × List PRRecord)) : List SavedReport :=
  (List.range ys.length).map
    (fun j => SavedReport.mk (gen0 + j + 1) (repos0 ++ ys.take (j + 1)))

theorem prefixSaves_cons (gen : Nat) (repos0 : List (String × List PRRecord))
    (y : String × List PRRecord) (rest : List (String × List PRRecord)) :
    prefixSaves gen repos0 (y :: rest) =
      SavedReport.mk (gen + 1) (repos0 ++ [y]) ::
        prefixSaves (gen + 1) (repos0 ++ [y]) rest := by
  unfold prefixSaves
  rw [List.length_cons, List.range_succ_eq_map]
  simp only [List.map_cons, List.map_map]
  refine List.cons_eq_cons.mpr ⟨rfl, ?_⟩
  refine List.map_congr_left ?_
  intro j _
  simp only [Function.comp_apply, List.take_succ_cons]
  have harith : gen + (j + 1) + 1 = gen + 1 + j + 1 := by omega
  rw [harith, List.append_cons]

theorem mainLoopGo_none (fatal : Bool) :
    ∀ (ys : List (String × List PRRecord)) (idx gen : Nat)
      (repos0 : List (String × List PRRecord)) (saves : List SavedReport),
    mainLoopGo none fatal ys idx repos0 gen saves =
      (if fatal then
        MainRun.mk (repos0 ++ ys)
          (saves ++ prefixSaves gen repos0 ys ++
            [SavedReport.mk (gen + ys.length) (repos0 ++ ys)]) 1
      else MainRun.mk (repos0 ++ ys) (saves ++ prefixSaves gen repos0 ys) 0) := by
  intro ys
  induction ys with
  | nil =>
    intro idx gen repos0 saves
    by_cases hf : fatal <;> simp [mainLoopGo, prefixSaves, hf]
  | cons y rest ih =>
    intro idx gen repos0 saves
    simp only [mainLoopGo]
    rw [ih, prefixSaves_cons]
    by_cases hf : fatal <;>
      simp [hf, List.append_assoc, List.singleton_append, List.cons_append,
        List.length_cons, Nat.add_comm, Nat.add_assoc, Nat.add_left_comm]

theorem mainLoopGo_interrupt (fatal : Bool) (k : Nat) :
    ∀ (ys : List (String × List PRRecord)) (idx gen : Nat)
      (repos0 : List (String × List PRRecord)) (saves : List SavedReport),
    idx ≤ k → k - idx < ys.length →
    mainLoopGo (some k) fatal ys idx repos0 gen saves =
      MainRun.mk (repos0 ++ ys.take (k - idx))
        (saves ++ prefixSaves gen repos0 (ys.take (k - idx))) 130 := by
  intro ys
  induction ys with
  | nil =>
    intro idx gen repos0 saves _ hlen
    simp only [List.length_nil] at hlen
    exact absurd hlen (by omega)
  | cons y rest ih =>
    intro idx gen repos0 saves hik hlen
    by_cases hki : k ≤ idx
    · have hkeq : k - idx = 0 := by omega
      simp [mainLoopGo, hki, hkeq, prefixSaves]
    · have hlt : idx < k := by omega
      have hstep : k - idx = (k - (idx + 1)) + 1 := by omega
      simp only [mainLoopGo, hki, decide_eq_true_eq, if_false]
      rw [ih (idx + 1) (gen + 1) (repos0 ++ [y])
        (saves ++ [SavedReport.mk (gen + 1) (repos0 ++ [y])]) (by omega)
        (by simp only [List.length_cons] at hlen; omega)]
      rw [hstep, List.take_succ_cons, prefixSaves_cons]
      simp [List.append_assoc, List.singleton_append, List.cons_append]

/-- A one-event PR record used in pipeline fixtures. -/
def recA : PRRecord := PRRecord.mk 1 "x" [PREvent.mk "created" "2025-06-10T00:00:00Z" "a"]

/-- C6 counterexample: when the interrupt flag is set while the iterator is
producing the second repository (index 1), the loop breaks before recording
it: the final report and the only save contain just the first repository, the
second repository's computed data is in no persisted snapshot, and the
process exits 130.  This contradicts "finishes the repository currently in
flight, persists that repository's data". -/
theorem claim_C6_counterexample :
    mainLoop [("r1", [recA]), ("r2", [recA])] (some 1) false =
      MainRun.mk [("r1", [recA])] [SavedReport.mk 1 [("r1", [recA])]] 130 ∧
    ("r2", [recA]) ∉ (SavedReport.mk 1 [("r1", [recA])]).repos := by
  exact ⟨rfl, by decide⟩

/-- C6 amended: the report is persisted after every repository yield with a
freshly refreshed generated_at stamp (save j records the first j+1 yields);
on an interrupt during production of yield k the loop stops before recording
that yield — the persisted snapshots cover exactly the k repositories
completed before the signal — and the process exits 130; on a fatal fetch
error after the yields the current report is saved once more and the process
exits 1. -/
theorem claim_C6_persistence :
    (∀ ys : List (String × List PRRecord),
        mainLoop ys none false = MainRun.mk ys (prefixSaves 0 [] ys) 0) ∧
    (∀ (ys : List (String × List PRRecord)) (k : Nat), k < ys.length →
        mainLoop ys (some k) false =
          MainRun.mk (ys.take k) (prefixSaves 0 [] (ys.take k)) 130) ∧
    (∀ ys : List (String × List PRRecord),
        mainLoop ys none true =
          MainRun.mk ys (prefixSaves 0 [] ys ++ [SavedReport.mk ys.length ys]) 1) := by
  refine ⟨?_, ?_, ?_⟩
  · intro ys
    have h := mainLoopGo_none false ys 0 0 [] []
    simpa [mainLoop] using h
  · intro ys k hk
    have h := mainLoopGo_interrupt false k ys 0 0 [] [] (by omega) (by omega)
    simpa [mainLoop] using h
  · intro ys
    have h := mainLoopGo_none true ys 0 0 [] []
    simpa [mainLoop] using h

/-- C6 witness: the interrupt conjunct applied to two yields with the signal
arriving during production of the second. -/
theorem claim_C6_witness :
    mainLoop [("r1", [recA]), ("r2", [recA])] (some 1) false =
      MainRun.mk ([("r1", [recA]), ("r2", [recA])].take 1)
        (prefixSaves 0 [] ([("r1", [recA]), ("r2", [recA])].take 1)) 130 :=
  claim_C6_persistence.2.1 [("r1", [recA]), ("r2", [recA])] 1 (by decide)

theorem collectRecordsTyped_nonempty (f : DateFilter) :
    ∀ (prs : List PRInput) (recs : List PRRecord),
    collectRecordsTyped f prs = Except.ok recs → ∀ r ∈ recs, r.events ≠ [] := by
  intro prs
  induction prs with
  | nil =>
    intro recs h r hr
    simp only [collectRecordsTyped, Except.ok.injEq] at h
    subst h
    simp at hr
  | cons pr rest ih =>
    intro recs h r hr
    simp only [collectRecordsTyped] at h
    cases hrec : fetchPrRecordTyped f pr with
    | error e => rw [hrec] at h; simp [Bind.bind, Except.bind] at h
    | ok r0 =>
      rw [hrec] at h
      cases htail : collectRecordsTyped f rest with
      | error e => rw [htail] at h; simp [Bind.bind, Except.bind] at h
      | ok others =>
        rw [htail] at h
        simp only [Bind.bind, Except.bind, Except.ok.injEq] at h
        rw [← h] at hr
        by_cases he : r0.events ≠ []
        · rw [if_pos he] at hr
          rcases List.mem_cons.mp hr with rfl | hmem
          · exact he
          · exact ih others htail r hmem
        · rw [if_neg he] at hr
          exact ih others htail r hr

theorem fetchOrganizationDataTyped_nonempty (f : DateFilter) :
    ∀ (repos : List RepoInput) (out : List (String × List PRRecord)),
    fetchOrganizationDataTyped f repos = Except.ok out →
    ∀ p ∈ out, p.2 ≠ [] ∧ ∀ r ∈ p.2, r.events ≠ [] := by
  intro repos
  induction repos with
  | nil =>
    intro out h p hp
    simp only [fetchOrganizationDataTyped, Except.ok.injEq] at h
    subst h
    simp at hp
  | cons repo rest ih =>
    intro out h p hp
    simp only [fetchOrganizationDataTyped] at h
    by_cases hb : repo.broken
    · rw [if_pos hb] at h
      exact ih out h p hp
    · rw [if_neg hb] at h
      cases hrecs : collectRecordsTyped f (fetchRepoPrsTyped f repo.prs) with
      | error e => rw [hrecs] at h; simp [Bind.bind, Except.bind] at h
      | ok recs =>
        rw [hrecs] at h
        cases htail : fetchOrganizationDataTyped f rest with
        | error e => rw [htail] at h; simp [Bind.bind, Except.bind] at h
        | ok tl =>
          rw [htail] at h
          simp only [Bind.bind, Except.bind, Except.ok.injEq] at h
          rw [← h] at hp
          by_cases hne : recs ≠ []
          · rw [if_pos hne] at hp
            rcases List.mem_cons.mp hp with rfl | hmem
            · exact ⟨hne, collectRecordsTyped_nonempty f _ recs hrecs⟩
            · exact ih tl htail p hmem
          · rw [if_neg hne] at hp
            exact ih tl htail p hp

theorem fetchOrganizationDataGh_nonempty (f : DateFilter) (rf : Option (String → Bool)) :
    ∀ repos : List RepoInput,
    ∀ p ∈ fetchOrganizationDataGh f rf repos, p.2 ≠ [] ∧ ∀ r ∈ p.2, r.events ≠ [] := by
  intro repos
  induction repos with
  | nil => intro p hp; simp [fetchOrganizationDataGh] at hp
  | cons repo rest ih =>
    intro p hp
    simp only [fetchOrganizationDataGh] at hp
    split at hp
    · exact ih p hp
    · split at hp
      · exact ih p hp
      · split at hp
        next hne =>
          rcases List.mem_cons.mp hp with rfl | hmem
          · refine ⟨hne, ?_⟩
            intro r hr
            have hmf := List.mem_filter.mp hr
            exact of_decide_eq_true hmf.2
          · exact ih p hmem
        next => exact ih p hp

/-- C5: a PR whose only data is a present author yields exactly one `created`
event at created_at (no date filtering — any window) in both backends and is
retained; PR records with empty event lists never appear in a yielded
repository entry, and repositories with no surviving records are never
yielded, in either backend; and a repository consisting of one author-only PR
is yielded with exactly that record. -/
theorem claim_C5_empty_records_dropped :
    (∀ (f : DateFilter) (pr : PRInput) (a : String),
        pr.author = some a → pr.reviewComments = [] → pr.issueComments = [] →
        pr.reviews = [] → pr.state = PRState.opened →
        fetchPrEventsTyped f pr noFail noFail noFail =
          Except.ok [PREvent.mk "created" pr.createdAt a]) ∧
    (∀ (f : DateFilter) (pr : PRInput) (a : String),
        pr.author = some a → a ≠ "" → pr.reviewComments = [] → pr.issueComments = [] →
        pr.reviews = [] → pr.state = PRState.opened →
        fetchPrEventsGh f pr = [PREvent.mk "created" pr.createdAt a]) ∧
    (∀ (f : DateFilter) (repos : List RepoInput) (out : List (String × List PRRecord)),
        fetchOrganizationDataTyped f repos = Except.ok out →
        ∀ p ∈ out, p.2 ≠ [] ∧ ∀ r ∈ p.2, r.events ≠ []) ∧
    (∀ (f : DateFilter) (rf : Option (String → Bool)) (repos : List RepoInput),
        ∀ p ∈ fetchOrganizationDataGh f rf repos, p.2 ≠ [] ∧ ∀ r ∈ p.2, r.events ≠ []) ∧
    (∀ (f : DateFilter) (name : String) (pr : PRInput) (a : String),
        pr.author = some a → pr.reviewComments = [] → pr.issueComments = [] →
        pr.reviews = [] → pr.state = PRState.opened →
        fetchRepoPrsTyped f [pr] = [pr] →
        fetchOrganizationDataTyped f [RepoInput.mk name [pr] false] =
          Except.ok [(name, [PRRecord.mk pr.number pr.title
            [PREvent.mk "created" pr.createdAt a]])]) := by
  have htyped : ∀ (f : DateFilter) (pr : PRInput) (a : String),
      pr.author = some a → pr.reviewComments = [] → pr.issueComments = [] →
      pr.reviews = [] → pr.state = PRState.opened →
      fetchPrEventsTyped f pr noFail noFail noFail =
        Except.ok [PREvent.mk "created" pr.createdAt a] := by
    intro f pr a ha hrc hic hrv hst
    simp [fetchPrEventsTyped, fetchPrEventsTypedRaw, goSourceE, noFail, takeOpt,
      ha, hrc, hic, hrv, hst, createdEventsTyped, reviewEventsTyped,
      terminalEventsTyped, Except.map, sortEvents, insertEvent, Bind.bind, Except.bind]
  refine ⟨htyped, ?_, fetchOrganizationDataTyped_nonempty, fetchOrganizationDataGh_nonempty, ?_⟩
  · intro f pr a ha hne hrc hic hrv hst
    simp [fetchPrEventsGh, fetchPrEventsGhRaw, ha, hne, hrc, hic, hrv, hst,
      createdEventsCli, terminalEventsCli, sortEvents, insertEvent]
  · intro f name pr a ha hrc hic hrv hst henum
    have hev := htyped f pr a ha hrc hic hrv hst
    have hrec : fetchPrRecordTyped f pr =
        Except.ok (PRRecord.mk pr.number pr.title [PREvent.mk "created" pr.createdAt a]) := by
      simp [fetchPrRecordTyped, hev, Except.map]
    simp [fetchOrganizationDataTyped, collectRecordsTyped, henum, hrec,
      Bind.bind, Except.bind]

/-- A PR carrying only an author, used as the retained author-only fixture. -/
def prAuthorOnly : PRInput := mkBarePR 11 "2025-06-18T00:00:00Z"

/-- C5 witness: the retention conjunct applied to a one-repository
organization holding one author-only PR under the empty window, plus the
typed aggregation conjunct on the same PR. -/
theorem claim_C5_witness :
    fetchOrganizationDataTyped wNone [RepoInput.mk "repo-a" [prAuthorOnly] false] =
      Except.ok [("repo-a", [PRRecord.mk prAuthorOnly.number prAuthorOnly.title
        [PREvent.mk "created" prAuthorOnly.createdAt "someone"]])] :=
  claim_C5_empty_records_dropped.2.2.2.2 wNone "repo-a" prAuthorOnly "someone"
    rfl rfl rfl rfl rfl (by rfl)

/-- C8: should_process_repo implements exactly "(include empty or some include
pattern matches) and (exclude empty or no exclude pattern matches)", with the
documented examples; the CLI pipeline consults the filter before doing any
work for a repository (a rejected repository is skipped outright); but the
typed fetch_organization_data has no filter parameter at all and processes a
repository that the configured patterns reject. -/
theorem claim_C8_repo_filter :
    (∀ (incl excl : List String) (name : String),
        shouldProcessRepo incl excl name = true ↔
          ((incl = [] ∨ ∃ p ∈ incl, fnmatchGlob name p = true) ∧
           (excl = [] ∨ ∀ p ∈ excl, fnmatchGlob name p = false))) ∧
    shouldProcessRepo ["*api*"] [] "payments-api" = true ∧
    shouldProcessRepo ["*api*"] ["*test*"] "payments-api" = true ∧
    shouldProcessRepo ["*api*"] ["*test*"] "payments-api-test" = false ∧
    (∀ (f : DateFilter) (pred : String → Bool) (repo : RepoInput)
        (rest : List RepoInput),
        pred repo.name = false →
        fetchOrganizationDataGh f (some pred) (repo :: rest) =
          fetchOrganizationDataGh f (some pred) rest) ∧
    (fetchOrganizationDataGh wNone (some (shouldProcessRepo ["*api*"] ["*test*"]))
        [RepoInput.mk "payments-api-test" [prAuthorOnly] false] = [] ∧
     fetchOrganizationDataTyped wNone
        [RepoInput.mk "payments-api-test" [prAuthorOnly] false] =
          Except.ok [("payments-api-test", [PRRecord.mk 11 "PR"
            [PREvent.mk "created" "2025-06-18T00:00:00Z" "someone"]])]) := by
  refine ⟨?_, ?_, ?_, ?_, ?_, ?_, ?_⟩
  · intro incl excl name
    simp only [shouldProcessRepo]
    by_cases h1 : incl ≠ [] ∧ incl.any (fun p => fnmatchGlob name p) = false
    · rw [if_pos h1]
      simp only [Bool.false_eq_true, false_iff]
      rintro ⟨hi, _⟩
      rcases hi with rfl | ⟨p, hp, hg⟩
      · exact h1.1 rfl
      · exact (List.any_eq_false.mp h1.2 p hp) hg
    · rw [if_neg h1]
      by_cases h2 : excl ≠ [] ∧ excl.any (fun p => fnmatchGlob name p) = true
      · rw [if_pos h2]
        simp only [Bool.false_eq_true, false_iff]
        rintro ⟨_, he⟩
        rcases he with rfl | hall
        · exact h2.1 rfl
        · rcases List.any_eq_true.mp h2.2 with ⟨p, hp, hg⟩
          have := hall p hp
          rw [this] at hg
          exact Bool.noConfusion hg
      · rw [if_neg h2]
        simp only [true_iff]
        constructor
        · by_cases hie : incl = []
          · exact Or.inl hie
          · right
            rcases not_and.mp h1 hie with h
            rcases List.any_eq_true.mp (Bool.not_eq_false _ ▸ h) with ⟨p, hp, hg⟩
            exact ⟨p, hp, hg⟩
        · by_cases hee : excl = []
          · exact Or.inl hee
          · right
            have h3 := not_and.mp h2 hee
            intro p hp
            exact Bool.eq_false_iff.mpr
              (List.any_eq_false.mp (Bool.not_eq_true _ ▸ h3) p hp)
  · simp [shouldProcessRepo, fnmatchGlob, globMatchAux, splitClass, findClose, memClass]
  · simp [shouldProcessRepo, fnmatchGlob, globMatchAux, splitClass, findClose, memClass]
  · simp [shouldProcessRepo, fnmatchGlob, globMatchAux, splitClass, findClose, memClass]
  · intro f pred repo rest h
    simp [fetchOrganizationDataGh, h]
  · simp [fetchOrganizationDataGh, shouldProcessRepo, fnmatchGlob, globMatchAux,
      splitClass, findClose, memClass]
  · rfl

/-- C8 witness: the CLI pipeline's skip conjunct applied to a repository whose
name the exclude pattern rejects. -/
theorem claim_C8_witness :
    fetchOrganizationDataGh wNone (some (fun n => !(fnmatchGlob n "*test*")))
        (RepoInput.mk "x-test" [] false :: []) =
      fetchOrganizationDataGh wNone (some (fun n => !(fnmatchGlob n "*test*"))) [] :=
  claim_C8_repo_filter.2.2.2.2.1 wNone (fun n => !(fnmatchGlob n "*test*"))
    (RepoInput.mk "x-test" [] false) []
    (by simp [fnmatchGlob, globMatchAux, splitClass, findClose, memClass])

/-- Side conditions of the amended equivalence claim: present logins and
timestamps are non-empty strings, a review with a user and a body has a
submission timestamp, no review is in state APPROVED or CHANGES_REQUESTED
(the typed backend never emits those events), and a merged PR carries both a
merger login and a merge timestamp (the typed backend would otherwise fall
back to closed_at where the CLI backend emits nothing). -/
def BackendsAgreeInput (pr : PRInput) : Prop :=
  (match pr.author with | some a => a ≠ "" | none => True) ∧
  (∀ c ∈ pr.reviewComments,
    (match c.user with | some u => u ≠ "" | none => True) ∧ c.created_at ≠ "") ∧
  (∀ c ∈ pr.issueComments,
    (match c.user with | some u => u ≠ "" | none => True) ∧ c.created_at ≠ "") ∧
  (∀ r ∈ pr.reviews,
    (match r.user with | some u => u ≠ "" | none => True) ∧
    (match r.submitted_at with | some sa => sa ≠ "" | none => True) ∧
    (r.user.isSome → r.body ≠ "" → r.submitted_at.isSome) ∧
    r.state ≠ "APPROVED" ∧ r.state ≠ "CHANGES_REQUESTED") ∧
  (pr.state = PRState.merged →
    (match pr.mergedBy with | some mb => mb ≠ "" | none => False) ∧
    (match pr.mergedAt with | some ma => ma ≠ "" | none => False)) ∧
  (match pr.closedAt with | some ca => ca ≠ "" | none => True)

theorem createdEvents_agree (pr : PRInput)
    (h : match pr.author with | some a => a ≠ "" | none => True) :
    createdEventsTyped pr = createdEventsCli pr := by
  unfold createdEventsTyped createdEventsCli
  cases ha : pr.author with
  | none => rfl
  | some a =>
    rw [ha] at h
    simp [h]

theorem commentEvent_agree_one (f : DateFilter) (c : ReviewComment)
    (hu : match c.user with | some u => u ≠ "" | none => True)
    (hd : c.created_at ≠ "") :
    commentEventTyped f c = commentEventCli f c := by
  unfold commentEventTyped commentEventCli
  cases hc : c.user with
  | none => rfl
  | some u =>
    rw [hc] at hu
    simp [hu, hd]

theorem commentEvents_agree (f : DateFilter) : ∀ (cs : List ReviewComment),
    (∀ c ∈ cs, (match c.user with | some u => u ≠ "" | none => True) ∧ c.created_at ≠ "") →
    cs.filterMap (commentEventTyped f) = cs.filterMap (commentEventCli f) := by
  intro cs
  induction cs with
  | nil => intro _; rfl
  | cons c rest ih =>
    intro h
    have hc := h c (List.mem_cons_self c rest)
    have hrest := fun c' hc' => h c' (List.mem_cons_of_mem c hc')
    rw [List.filterMap_cons, List.filterMap_cons,
      commentEvent_agree_one f c hc.1 hc.2, ih hrest]

theorem reviewEvents_agree (f : DateFilter) : ∀ (rs : List Review),
    (∀ r ∈ rs,
      (match r.user with | some u => u ≠ "" | none => True) ∧
      (match r.submitted_at with | some sa => sa ≠ "" | none => True) ∧
      (r.user.isSome → r.body ≠ "" → r.submitted_at.isSome) ∧
      r.state ≠ "APPROVED" ∧ r.state ≠ "CHANGES_REQUESTED") →
    reviewEventsTyped f rs = Except.ok (rs.flatMap (reviewEventsCliOne f)) := by
  intro rs
  induction rs with
  | nil => intro _; rfl
  | cons r rest ih =>
    intro h
    obtain ⟨hu, hsa, himp, hap, hcr⟩ := h r (List.mem_cons_self r rest)
    have hrest := fun r' hr' => h r' (List.mem_cons_of_mem r hr')
    rw [List.flatMap_cons]
    cases hcu : r.user with
    | none =>
      simp only [reviewEventsTyped, hcu]
      rw [ih hrest]
      unfold reviewEventsCliOne
      rw [hcu]
      simp
    | some u =>
      rw [hcu] at hu
      simp only [reviewEventsTyped, hcu]
      by_cases hb : r.body ≠ "" ∧ f.contains r.submitted_at = true
      · have hsub : r.submitted_at.isSome := himp (by simp [hcu]) hb.1
        obtain ⟨sa, hsa'⟩ := Option.isSome_iff_exists.mp hsub
        rw [if_pos hb, hsa']
        rw [ih hrest]
        simp only [Bind.bind, Except.bind]
        unfold reviewEventsCliOne
        rw [hcu, hsa']
        rw [hsa'] at hsa
        have hcont : f.contains (some sa) = true := by rw [← hsa']; exact hb.2
        simp [hu, hsa, hap, hcr, hb.1, hcont]
      · rw [if_neg hb]
        rw [ih hrest]
        unfold reviewEventsCliOne
        rw [hcu]
        cases hcsub : r.submitted_at with
        | none => simp
        | some sa =>
          rw [hcsub] at hsa hb
          by_cases hbody : r.body = ""
          · simp [hbody, hap, hcr, hu, hsa]
          · have hcont : f.contains (some sa) = false := by
              rcases not_and_or.mp hb with hx | hx
              · exact absurd (not_not.mp hx) hbody
              · exact Bool.eq_false_iff.mpr hx
            simp [hap, hcr, hu, hsa, hbody, hcont]

theorem terminalEvents_agree (pr : PRInput)
    (hm : pr.state = PRState.merged →
      (match pr.mergedBy with | some mb => mb ≠ "" | none => False) ∧
      (match pr.mergedAt with | some ma => ma ≠ "" | none => False))
    (hc : match pr.closedAt with | some ca => ca ≠ "" | none => True) :
    terminalEventsTyped pr = Except.ok (terminalEventsCli pr) := by
  cases hst : pr.state with
  | opened => simp [terminalEventsTyped, terminalEventsCli, hst]
  | merged =>
    obtain ⟨hmb, hma⟩ := hm hst
    cases hmb' : pr.mergedBy with
    | none => rw [hmb'] at hmb; exact absurd hmb (by simp)
    | some mb =>
      cases hma' : pr.mergedAt with
      | none => rw [hma'] at hma; exact absurd hma (by simp)
      | some ma =>
        rw [hmb'] at hmb
        rw [hma'] at hma
        simp [terminalEventsTyped, terminalEventsCli, hst, hmb', hma', hmb, hma]
  | closed =>
    cases hca : pr.closedAt with
    | none => simp [terminalEventsTyped, terminalEventsCli, hst, hca]
    | some ca =>
      rw [hca] at hc
      simp [terminalEventsTyped, terminalEventsCli, hst, hca, hc]

/-- C4 counterexample: on a PR whose single review is APPROVED, the typed
backend returns no events while the CLI backend returns one approved event —
the two backends' outputs are not equal on the same upstream data. -/
theorem claim_C4_counterexample :
    fetchPrEventsTyped windowJune prApproved noFail noFail noFail ≠
      Except.ok (fetchPrEventsGh windowJune prApproved) := by
  intro h
  exact absurd (Except.ok.inj h) (by decide)

/-- C4 amended: the two backends produce the same per-PR event list provided
that present logins and timestamps are non-empty, reviews carrying a user and
a body also carry a submission timestamp, no review is APPROVED or
CHANGES_REQUESTED, and merged PRs carry merger and merge timestamp
(`BackendsAgreeInput`); without those conditions they diverge (the typed
backend omits approval/changes-requested events and falls back to closed_at
for a missing merge timestamp). -/
theorem claim_C4_backend_equivalence (f : DateFilter) (pr : PRInput)
    (h : BackendsAgreeInput pr) :
    fetchPrEventsTyped f pr noFail noFail noFail =
      Except.ok (fetchPrEventsGh f pr) := by
  obtain ⟨h1, h2, h3, h4, h5, h6⟩ := h
  have e0 := createdEvents_agree pr h1
  have e1 := commentEvents_agree f pr.reviewComments h2
  have e2 := commentEvents_agree f pr.issueComments h3
  have e3 := reviewEvents_agree f pr.reviews h4
  have e4 := terminalEvents_agree pr h5 h6
  unfold fetchPrEventsTyped fetchPrEventsTypedRaw fetchPrEventsGh fetchPrEventsGhRaw
  simp [goSourceE, noFail, takeOpt, e0, e1, e2, e3, e4, Bind.bind, Except.bind,
    Except.map]

/-- A merged PR with an author, one review comment, and one body-only
COMMENTED review, satisfying `BackendsAgreeInput`. -/
def prC4Demo : PRInput :=
  { number := 21, title := "Demo", author := some "author",
    createdAt := "2025-06-01T00:00:00Z", state := PRState.merged,
    mergedBy := some "merger", mergedAt := some "2025-06-09T00:00:00Z",
    closedAt := some "2025-06-09T00:00:00Z",
    reviewComments := [⟨some "alice", "2025-06-03T00:00:00Z"⟩],
    issueComments := [],
    reviews := [⟨some "bob", some "2025-06-04T00:00:00Z", "COMMENTED", "nice"⟩] }

/-- C4 witness: the equivalence applied to a concrete PR with an author, a
review comment, and a body-only review, under the empty window. -/
theorem claim_C4_witness :
    fetchPrEventsTyped wNone prC4Demo noFail noFail noFail =
      Except.ok (fetchPrEventsGh wNone prC4Demo) :=
  claim_C4_backend_equivalence wNone prC4Demo (by
    refine ⟨?_, ?_, ?_, ?_, ?_, ?_⟩
    · show ("author" : String) ≠ ""
      decide
    · intro c hc
      have hc2 : c = ⟨some "alice", "2025-06-03T00:00:00Z"⟩ := by
        simpa [prC4Demo] using hc
      subst hc2
      exact ⟨by decide, by decide⟩
    · intro c hc
      exact absurd hc (by simp [prC4Demo])
    · intro r hr
      have hr2 : r = ⟨some "bob", some "2025-06-04T00:00:00Z", "COMMENTED", "nice"⟩ := by
        simpa [prC4Demo] using hr
      subst hr2
      exact ⟨by decide, by decide, fun _ _ => rfl, by decide, by decide⟩
    · intro _
      constructor
      · show ("merger" : String) ≠ ""
        decide
      · show ("2025-06-09T00:00:00Z" : String) ≠ ""
        decide
    · show ("2025-06-09T00:00:00Z" : String) ≠ ""
      decide)
